import Mathlib

/-!
Verification of the repository-synchronization core of the
KOFI-GYIMAH/github-monitor service, as a shallow embedding in Lean 4.

The embedding translates the Go source:
  * `internal/db` (PostgresDB): the persistence gateway, modelled as pure
    state-passing functions over an explicit database state; the SQL
    statements are modelled by their row-level semantics under the schema
    of `migrations/001_init_schema.up.sql` (unique repository name,
    unique (sha, repository_id) per commit).
  * `internal/service` (RepositoryService.SyncRepository): the fetch-then-
    persist operation, with the GitHub fetch results and the possible
    database-statement failures supplied as explicit parameters
    (an oracle per fallible statement), and an event trace recording the
    order in which the steps execute.
  * `internal/github` (Client.ListCommits and the pagination helpers,
    RateLimiter): pagination modelled against an abstract page server,
    requests reified as records so that the query parameters actually
    transmitted can be inspected; the rate limiter modelled on abstract
    integer time, with sleeps reified as data.
  * `internal/worker` (SyncWorker.Run): the polling loop modelled as a
    function from a finite prefix of its event stream (timer ticks with
    their read/sync outcomes, cancellation) to the list of actions taken.

Error values are carried as strings; the Go code wraps errors with
message context, which does not affect any property proved here, so the
wrapping is dropped and error values are propagated unchanged.
Timestamps are abstract integers.
-/

/-- Error values (Go `error`), carried abstractly as strings. -/
abbrev Err := String

namespace Models

/-- `internal/models.Repository`, i.e. one row of the `repositories`
table. `lastCommitFetchedAt` is the nullable watermark column
`last_commit_fetched_at`. -/
structure Repository where
  id : Nat
  name : String
  description : String
  url : String
  language : String
  forksCount : Int
  starsCount : Int
  openIssuesCount : Int
  watchersCount : Int
  createdAt : Int
  updatedAt : Int
  lastCommitFetchedAt : Option Int
deriving Repr, DecidableEq

/-- `internal/models.Commit`, i.e. one row of the `commits` table
(minus the surrogate serial id, which nothing reads). -/
structure Commit where
  sha : String
  repositoryId : Nat
  message : String
  authorName : String
  authorEmail : String
  authorDate : Int
  commitUrl : String
deriving Repr, DecidableEq

end Models

/-- The database state: the two tables of
`migrations/001_init_schema.up.sql`, plus the sequence backing the
`repositories.id` SERIAL column. -/
structure DBState where
  repositories : List Models.Repository
  commits : List Models.Commit
  nextId : Nat
deriving Repr, DecidableEq

namespace DB

/-- The metadata columns supplied to the `INSERT ... ON CONFLICT` of
`UpsertRepository(Tx)` (all columns except `id` and
`last_commit_fetched_at`). -/
structure RepoMetadata where
  name : String
  description : String
  url : String
  language : String
  forksCount : Int
  starsCount : Int
  openIssuesCount : Int
  watchersCount : Int
  createdAt : Int
  updatedAt : Int
deriving Repr, DecidableEq

/-- The `DO UPDATE SET` clause of `UpsertRepositoryTx`: overwrites
description, url, language, the four counters and `updated_at`;
`id`, `name`, `created_at` and `last_commit_fetched_at` are not in the
SET list. -/
def applyRepoUpdate (m : RepoMetadata) (r : Models.Repository) : Models.Repository :=
  { r with
    description := m.description
    url := m.url
    language := m.language
    forksCount := m.forksCount
    starsCount := m.starsCount
    openIssuesCount := m.openIssuesCount
    watchersCount := m.watchersCount
    updatedAt := m.updatedAt }

/-- Row produced by the insert arm of `UpsertRepositoryTx`: a fresh id
from the sequence, the supplied metadata, and NULL
`last_commit_fetched_at` (the column is absent from the insert list). -/
def freshRepoRow (m : RepoMetadata) (id : Nat) : Models.Repository :=
  { id := id
    name := m.name
    description := m.description
    url := m.url
    language := m.language
    forksCount := m.forksCount
    starsCount := m.starsCount
    openIssuesCount := m.openIssuesCount
    watchersCount := m.watchersCount
    createdAt := m.createdAt
    updatedAt := m.updatedAt
    lastCommitFetchedAt := none }

/-- Update the first row with the given name (the row targeted by
`ON CONFLICT(name)`; under the `unique_repo_name` constraint there is at
most one). -/
def updateFirstByName (nm : String) (f : Models.Repository → Models.Repository) :
    List Models.Repository → List Models.Repository
  | [] => []
  | r :: rs => if r.name = nm then f r :: rs else r :: updateFirstByName nm f rs

/-- `PostgresDB.UpsertRepositoryTx`: insert-or-update keyed by the unique
name, `RETURNING id, last_commit_fetched_at` (the values of the row
after the statement). Returns (new state, returned id, returned
watermark). -/
def upsertRepositoryTx (m : RepoMetadata) (s : DBState) :
    DBState × Nat × Option Int :=
  match s.repositories.find? (fun r => r.name = m.name) with
  | some r =>
      ({ s with repositories := updateFirstByName m.name (applyRepoUpdate m) s.repositories },
       (applyRepoUpdate m r).id, (applyRepoUpdate m r).lastCommitFetchedAt)
  | none =>
      ({ s with
          repositories := s.repositories ++ [freshRepoRow m s.nextId]
          nextId := s.nextId + 1 },
       s.nextId, none)

/-- Whether a commit row with this (sha, repository_id) key is present:
the `unique_commit_per_repo` constraint that `ON CONFLICT` targets. -/
def commitKeyMem (s : DBState) (sha : String) (repoId : Nat) : Bool :=
  s.commits.any (fun d => d.sha = sha && d.repositoryId = repoId)

/-- `PostgresDB.InsertCommitTx`: `INSERT ... ON CONFLICT(sha,
repository_id) DO NOTHING`. A conflicting insert is a silent no-op, not
an error. -/
def insertCommitTx (c : Models.Commit) (s : DBState) : DBState :=
  if commitKeyMem s c.sha c.repositoryId then s
  else { s with commits := s.commits ++ [c] }

/-- Update every row with the given id (the `UPDATE ... WHERE id = $2`
of `UpdateRepositoryTx`). -/
def updateWatermarkById (id : Nat) (w : Option Int) :
    List Models.Repository → List Models.Repository :=
  List.map (fun r => if r.id = id then { r with lastCommitFetchedAt := w } else r)

/-- `PostgresDB.UpdateRepositoryTx`: `UPDATE repositories SET
last_commit_fetched_at = $1 WHERE id = $2`. -/
def updateRepositoryTx (id : Nat) (w : Option Int) (s : DBState) : DBState :=
  { s with repositories := updateWatermarkById id w s.repositories }

/-- `PostgresDB.WithTransaction`: run the body against the transaction;
on an error from the body, roll back (the pre-transaction state is
kept); otherwise commit the body's state. -/
def withTransaction (s : DBState) (fn : DBState → Except Err DBState) :
    Except Err Unit × DBState :=
  match fn s with
  | .ok s1 => (.ok (), s1)
  | .error e => (.error e, s)

/-- The repository id the `DELETE ... WHERE repository_id = (SELECT id
FROM repositories WHERE name = $1)` subquery resolves to. -/
def repoIdByName (s : DBState) (nm : String) : Option Nat :=
  (s.repositories.find? (fun r => r.name = nm)).map (fun r => r.id)

/-- First statement of `PostgresDB.ResetRepository`: delete all commits
of the named repository (no rows affected when the subquery is empty). -/
def deleteCommitsOf (nm : String) (s : DBState) : DBState :=
  match repoIdByName s nm with
  | some id => { s with commits := s.commits.filter (fun c => c.repositoryId ≠ id) }
  | none => s

/-- Row-level effect of `UPDATE repositories SET last_commit_fetched_at
= $1 WHERE name = $2`. -/
def setWatermarkRow (nm : String) (w : Option Int) (r : Models.Repository) :
    Models.Repository :=
  if r.name = nm then { r with lastCommitFetchedAt := w } else r

/-- Second statement of `PostgresDB.ResetRepository`: `UPDATE
repositories SET last_commit_fetched_at = $1 WHERE name = $2`. -/
def setWatermarkByName (nm : String) (w : Option Int) (s : DBState) : DBState :=
  { s with repositories := s.repositories.map (setWatermarkRow nm w) }

/-- `PostgresDB.ResetRepository`: two separate auto-committed statements
on the raw connection (`p.db.ExecContext`), not wrapped in any
transaction. `delErr`/`updErr` inject a failure of the respective
statement (a failing statement has no effect of its own); a failure is
returned and the effects of the statements already executed remain. -/
def resetRepository (delErr updErr : Option Err) (nm : String) (since : Int)
    (s : DBState) : Except Err Unit × DBState :=
  match delErr with
  | some e => (.error e, s)
  | none =>
      let s1 := deleteCommitsOf nm s
      match updErr with
      | some e => (.error e, s1)
      | none => (.ok (), setWatermarkByName nm (some since) s1)

end DB

namespace GH

/-- `internal/github.Repository`: the decoded repository metadata. -/
structure Repository where
  fullName : String
  description : String
  htmlUrl : String
  language : String
  forksCount : Int
  stargazersCount : Int
  openIssuesCount : Int
  watchersCount : Int
  createdAt : Int
  updatedAt : Int
deriving Repr, DecidableEq

/-- The nested `commit` object of `internal/github.Commit` (message and
commit author). -/
structure CommitDetail where
  message : String
  authorName : String
  authorEmail : String
  authorDate : Int
deriving Repr, DecidableEq

/-- `internal/github.Commit`: one decoded commit entry; `authorLogin` is
the login of the top-level `author` object. -/
structure Commit where
  sha : String
  htmlUrl : String
  commit : CommitDetail
  authorLogin : String
deriving Repr, DecidableEq

end GH

namespace Service

/-- The `models.Repository` value `SyncRepository` builds from the
fetched GitHub metadata (the `dbRepo` literal; id and watermark are left
at their zero values and are not read before the upsert). -/
def toRepoMetadata (g : GH.Repository) : DB.RepoMetadata :=
  { name := g.fullName
    description := g.description
    url := g.htmlUrl
    language := g.language
    forksCount := g.forksCount
    starsCount := g.stargazersCount
    openIssuesCount := g.openIssuesCount
    watchersCount := g.watchersCount
    createdAt := g.createdAt
    updatedAt := g.updatedAt }

/-- The `models.Commit` value `SyncRepository` builds for a fetched
commit (the `dbCommit` literal): author name taken from the top-level
author login, email and date from the nested commit author. -/
def toCommitRow (repoId : Nat) (c : GH.Commit) : Models.Commit :=
  { sha := c.sha
    repositoryId := repoId
    message := c.commit.message
    authorName := c.authorLogin
    authorEmail := c.commit.authorEmail
    authorDate := c.commit.authorDate
    commitUrl := c.htmlUrl }

/-- Observable step of `SyncRepository`, in execution order. -/
inductive SyncEvent
  | beginTx
  | fetchMetadata
  | upsertRepo
  | fetchCommits
  | insertCommit (sha : String)
  | updateWatermark
  | commitTx
  | rollbackTx
deriving Repr, DecidableEq

/-- Failure injection for the persistence statements issued inside the
transaction: `upsertErr`/`updateErr` make the repository upsert / the
watermark update fail, `insertErr i` makes the insert of the i-th
fetched commit (0-based) fail. A failing statement has no effect on the
state. -/
structure SyncOracles where
  upsertErr : Option Err
  insertErr : Nat → Option Err
  updateErr : Option Err

/-- Oracles under which every persistence statement succeeds. -/
def noFailures : SyncOracles :=
  { upsertErr := none, insertErr := fun _ => none, updateErr := none }

/-- The commit-insertion loop of `SyncRepository`: insert each fetched
commit in order via `InsertCommitTx`, aborting on the first statement
error. Also returns the events of the attempted inserts. -/
def insertLoop (o : Nat → Option Err) (repoId : Nat) :
    List GH.Commit → Nat → DBState → (Except Err DBState) × List SyncEvent
  | [], _, s => (.ok s, [])
  | c :: cs, i, s =>
      match o i with
      | some e => (.error e, [.insertCommit c.sha])
      | none =>
          let rest := insertLoop o repoId cs (i + 1) (DB.insertCommitTx (toCommitRow repoId c) s)
          (rest.1, .insertCommit c.sha :: rest.2)

/-- The transaction body of `RepositoryService.SyncRepository` (the
closure passed to `WithTransaction`), with its event trace. In source
order: fetch metadata via the client, upsert the repository row, fetch
the commits since `since` via the client, insert every fetched commit,
then set the watermark to `now` (`time.Now()`). `meta` and `commitsR`
are the results the GitHub client produces for the two fetches. -/
def syncBody (meta : Except Err GH.Repository)
    (commitsR : Except Err (List GH.Commit)) (o : SyncOracles) (now : Int)
    (s : DBState) : (Except Err DBState) × List SyncEvent :=
  match meta with
  | .error e => (.error e, [.fetchMetadata])
  | .ok g =>
      match o.upsertErr with
      | some e => (.error e, [.fetchMetadata, .upsertRepo])
      | none =>
          let u := DB.upsertRepositoryTx (toRepoMetadata g) s
          let s1 := u.1
          let repoId := u.2.1
          match commitsR with
          | .error e => (.error e, [.fetchMetadata, .upsertRepo, .fetchCommits])
          | .ok commits =>
              let ins := insertLoop o.insertErr repoId commits 0 s1
              let insEvents := [SyncEvent.fetchMetadata, .upsertRepo, .fetchCommits] ++ ins.2
              match ins.1 with
              | .error e => (.error e, insEvents)
              | .ok s2 =>
                  match o.updateErr with
                  | some e => (.error e, insEvents ++ [.updateWatermark])
                  | none =>
                      (.ok (DB.updateRepositoryTx repoId (some now) s2),
                       insEvents ++ [.updateWatermark])

/-- `RepositoryService.SyncRepository`: the transaction body run under
`PostgresDB.WithTransaction`. Returns the call result, the final
database state, and the event trace (begin, the body's events, then
commit or rollback). -/
def syncRepository (meta : Except Err GH.Repository)
    (commitsR : Except Err (List GH.Commit)) (o : SyncOracles) (now : Int)
    (s : DBState) : (Except Err Unit × DBState) × List SyncEvent :=
  let body := syncBody meta commitsR o now s
  match body.1 with
  | .ok s1 => ((.ok (), s1), .beginTx :: body.2 ++ [.commitTx])
  | .error e => ((.error e, s), .beginTx :: body.2 ++ [.rollbackTx])

end Service

namespace Client

/-- Query parameters transmitted on a commits request (`since`, `page`,
`per_page`); a `none` field is absent from the query string. -/
structure CommitsRequest where
  since : Option Int
  page : Option Nat
  perPage : Option Nat
deriving Repr, DecidableEq

/-- One upstream response page: its decoded commit entries and whether
the `Link` header carries a `rel="next"` marker. -/
structure Page where
  commits : List GH.Commit
  hasNext : Bool
deriving Repr, DecidableEq

/-- The upstream fixture: the sequence of pages the server serves, page
number n being entry n-1; a request beyond the last page (or a
request without a page parameter beyond an empty server) yields an empty
page with no marker. -/
abbrev Server := List Client.Page

/-- The page the server serves for a given 1-based page number. -/
def servePage (server : Server) (n : Nat) : Page :=
  (server.drop (n - 1)).headD { commits := [], hasNext := false }

/-- `internal/github.CommitListOptions`: `since` is `none` when the Go
zero `time.Time` is passed (`opts.Since.IsZero()`). -/
structure CommitListOptions where
  since : Option Int
  page : Nat
  perPage : Nat
deriving Repr, DecidableEq

/-- `Client.fetchSinglePage`: issues one request whose query carries
only the `since` bound — the path is built from `queryParams`, to which
`ListCommits` never adds `page` or `per_page` — and returns the decoded
entries of the response unchanged. The server answers a page-less
request with its first page. Returns (commits, requests issued). -/
def fetchSinglePage (since : Option Int) (server : Server) :
    List GH.Commit × List CommitsRequest :=
  ((servePage server 1).commits, [{ since := since, page := none, perPage := none }])

/-- The loop of `Client.fetchAllPages`, already positioned at page
`pageNum`, with the remainder of the server's page list ahead of it.
Each iteration requests `page=pageNum&per_page=100` plus the `since`
bound, appends the decoded entries, and stops when a page decodes to
zero entries or its `Link` header has no `rel="next"` marker. -/
def fetchAllPagesFrom (since : Option Int) (pageNum : Nat) :
    Server → List GH.Commit × List CommitsRequest
  | [] => ([], [{ since := since, page := some pageNum, perPage := some 100 }])
  | p :: rest =>
      let req : CommitsRequest := { since := since, page := some pageNum, perPage := some 100 }
      if p.commits.isEmpty then ([], [req])
      else if p.hasNext then
        let next := fetchAllPagesFrom since (pageNum + 1) rest
        (p.commits ++ next.1, req :: next.2)
      else (p.commits, [req])

/-- `Client.fetchAllPages`: start at page 1. -/
def fetchAllPages (since : Option Int) (server : Server) :
    List GH.Commit × List CommitsRequest :=
  fetchAllPagesFrom since 1 server

/-- `Client.ListCommits`: an explicit positive page number selects the
single-page fetch, otherwise all pages are fetched. -/
def listCommits (opts : CommitListOptions) (server : Server) :
    List GH.Commit × List CommitsRequest :=
  if opts.page > 0 then fetchSinglePage opts.since server
  else fetchAllPages opts.since server

end Client

namespace RL

/-- Mutable state of `internal/github.RateLimiter` (the mutex is not
modelled; every transition below is one critical section). -/
structure State where
  remaining : Int
  reset : Int
  lowWarn : Int
  retryAfter : Int
deriving Repr, DecidableEq

/-- `NewRateLimiter()`: full default quota, reset at the current time,
warning threshold 100, zero-valued retry-after. -/
def newRateLimiter (now : Int) : State :=
  { remaining := 5000, reset := now, lowWarn := 100, retryAfter := 0 }

/-- The rate-limit signals carried by a response's headers
(`X-RateLimit-Remaining`, `X-RateLimit-Reset`, `Retry-After`); a `none`
field is an absent or unparsable header. -/
structure Headers where
  remaining : Option Int
  reset : Option Int
  retryAfter : Option Int
deriving Repr, DecidableEq

/-- `RateLimiter.updateFromHeaders`: each present header overwrites the
corresponding field. -/
def updateFromHeaders (h : Headers) (st : State) : State :=
  { st with
    remaining := h.remaining.getD st.remaining
    reset := h.reset.getD st.reset
    retryAfter := h.retryAfter.getD st.retryAfter }

/-- `RateLimiter.waitIfNeeded`: the duration of the single
`time.Sleep` performed before a request is issued — the time remaining
until reset when the quota is exhausted and the reset time is still
ahead, and zero otherwise (no sleep). -/
def waitIfNeeded (st : State) (now : Int) : Int :=
  if st.remaining ≤ 0 ∧ now < st.reset then st.reset - now else 0

/-- Outcome of one invocation of the wrapped transport
(`next.RoundTrip`): a transport error, or a response with a status code
and rate-limit headers. -/
inductive UpstreamOutcome
  | netError (e : Err)
  | response (status : Nat) (headers : Headers)
deriving Repr, DecidableEq

/-- Observable behaviour of one trip through the middleware: the result
handed back to the HTTP client (transport error, or final status code),
how many times the wrapped transport was invoked, and the sleeps
performed (as durations, in order). -/
structure TripResult where
  result : Except Err Nat
  callsMade : Nat
  sleeps : List Int
  finalState : State
deriving Repr

/-- `RateLimiter.Middleware`: wait if the quota demands it, invoke the
transport; a transport error propagates immediately; a 429 response has
the state updated from its headers, a sleep of the declared retry-after,
and exactly one further transport invocation whose outcome is returned
as is (no second look at its status); any other response updates the
state and is returned. `upstream n` is the outcome of the (n+1)-th
transport invocation. -/
def middleware (st0 : State) (now : Int) (upstream : Nat → UpstreamOutcome) :
    TripResult :=
  let w := waitIfNeeded st0 now
  let waitSleeps := if st0.remaining ≤ 0 ∧ now < st0.reset then [w] else []
  match upstream 0 with
  | .netError e =>
      { result := .error e, callsMade := 1, sleeps := waitSleeps, finalState := st0 }
  | .response status h =>
      if status = 429 then
        let st1 := updateFromHeaders h st0
        match upstream 1 with
        | .netError e =>
            { result := .error e, callsMade := 2
              sleeps := waitSleeps ++ [st1.retryAfter], finalState := st1 }
        | .response status2 _ =>
            { result := .ok status2, callsMade := 2
              sleeps := waitSleeps ++ [st1.retryAfter], finalState := st1 }
      else
        { result := .ok status, callsMade := 1, sleeps := waitSleeps
          finalState := updateFromHeaders h st0 }

/-- The client layer above the middleware (`makeRequest` callers such as
`fetchSinglePage`/`fetchAllPages`/`GetRepository`): a transport error or
a non-200 status code is turned into an error returned to the caller. -/
def clientSeesError (t : TripResult) : Bool :=
  match t.result with
  | .error _ => true
  | .ok status => status ≠ 200

end RL

namespace Worker

/-- Outcome of the watermark read at a tick
(`RepositoryService.GetRepository`): an error, or a repository (Go
`nil` possible in principle, hence the outer option) with its nullable
watermark. -/
abbrev ReadResult := Except Err (Option (Option Int))

/-- One occurrence the `select` of `SyncWorker.Run` can observe: a timer
tick — bundled with the outcomes the environment gives that tick's
watermark read and sync call — or the cancellation signal. -/
inductive Event
  | tick (read : ReadResult) (syncResult : Except Err Unit)
  | cancel
deriving Repr

/-- Action the worker performs, in order. `syncAttempt w` is a
`SyncRepository` call with `since = w`; `0` stands for the zero
`time.Time`. -/
inductive Action
  | syncAttempt (since : Int)
  | logReadError
  | logSyncError
  | logSyncSuccess
  | stopped
deriving Repr, DecidableEq

/-- The `since` value the tick branch computes: the zero time unless the
repository was fetched and carries a non-null watermark. -/
def sinceOf (repoOpt : Option (Option Int)) : Int :=
  match repoOpt with
  | some (some w) => w
  | _ => 0

/-- The body of one `ticker.C` arm: a failed watermark read is logged
and the iteration abandoned (`continue`); otherwise `SyncRepository` is
called with the stored watermark and its outcome logged. -/
def tickActions (read : ReadResult) (syncResult : Except Err Unit) : List Action :=
  match read with
  | .error _ => [.logReadError]
  | .ok repoOpt =>
      match syncResult with
      | .error _ => [.syncAttempt (sinceOf repoOpt), .logSyncError]
      | .ok _ => [.syncAttempt (sinceOf repoOpt), .logSyncSuccess]

/-- The `for { select { ... } }` loop of `SyncWorker.Run` over a finite
prefix of its event stream: every tick is processed in full and the loop
unconditionally continues; the cancellation signal returns from `Run`. -/
def loop : List Event → List Action
  | [] => []
  | .cancel :: _ => [.stopped]
  | .tick r sr :: rest => tickActions r sr ++ loop rest

/-- `SyncWorker.Run`: one immediate `SyncRepository` call with the zero
`time.Time` watermark, whose failure is logged and not fatal, then the
timer loop. -/
def run (initialSyncResult : Except Err Unit) (events : List Event) : List Action :=
  (match initialSyncResult with
   | .error _ => [Action.syncAttempt 0, .logSyncError]
   | .ok _ => [Action.syncAttempt 0]) ++ loop events

end Worker

/-!  ## Theorems  -/

/-- C8: before any outbound request, if the remaining quota is ≤ 0 and
the current time is before the recorded reset time, the calling task is
blocked by one single sleep of exactly the remaining duration until the
reset time — the wake time is exactly the reset time — and in the
middleware this sleep is the first sleep performed, before the first
transport invocation, so with remaining quota 0 and reset time T in the
future the next outbound call is not issued before T. -/
theorem waitIfNeeded_blocks_until_reset (st : RL.State) (now : Int)
    (hq : st.remaining ≤ 0) (ht : now < st.reset) :
    RL.waitIfNeeded st now = st.reset - now ∧
    now + RL.waitIfNeeded st now = st.reset ∧
    (∀ upstream, (RL.middleware st now upstream).sleeps.head? = some (st.reset - now)) := by
  refine ⟨?_, ?_, ?_⟩
  · simp [RL.waitIfNeeded, hq, ht]
  · simp [RL.waitIfNeeded, hq, ht]
  · intro upstream
    unfold RL.middleware
    cases h0 : upstream 0 with
    | netError e => simp [RL.waitIfNeeded, hq, ht]
    | response status h =>
      by_cases hs : status = 429
      · cases h1 : upstream 1 <;> simp [hs, RL.waitIfNeeded, hq, ht]
      · simp [hs, RL.waitIfNeeded, hq, ht]

/-- Witness for C8 at remaining quota 0, reset time 100, current time
40: the single sleep lasts 60 and ends exactly at the reset time. -/
theorem waitIfNeeded_blocks_until_reset_witness :
    RL.waitIfNeeded { remaining := 0, reset := 100, lowWarn := 100, retryAfter := 0 } 40 = 100 - 40 ∧
    40 + RL.waitIfNeeded { remaining := 0, reset := 100, lowWarn := 100, retryAfter := 0 } 40 = 100 ∧
    (∀ upstream,
      (RL.middleware { remaining := 0, reset := 100, lowWarn := 100, retryAfter := 0 } 40 upstream).sleeps.head? =
        some (100 - 40)) :=
  waitIfNeeded_blocks_until_reset
    { remaining := 0, reset := 100, lowWarn := 100, retryAfter := 0 } 40
    (by decide) (by decide)

/-- C7: on a "too many requests" (429) response the middleware updates
its quota state from that response's headers, sleeps for the declared
retry-after duration, and retries the identical request exactly once:
two consecutive 429 responses cause exactly two transport invocations
(one retry, never a second), and the surviving 429 is surfaced to the
calling client code as an error (non-200 status); a 429 followed by a
200 likewise costs exactly two invocations and succeeds after the
declared delay; a network error or a 5xx response is never retried —
one transport invocation, propagated immediately. -/
theorem middleware_retries_throttling_once (st : RL.State) (now : Int)
    (hrem hres : Option Int) (d : Int) (hdr2 hdr5 : RL.Headers) (e : Err) :
    (let t := RL.middleware st now (fun n =>
        if n = 0 then .response 429 { remaining := hrem, reset := hres, retryAfter := some d }
        else .response 429 hdr2)
     t.callsMade = 2 ∧ RL.clientSeesError t = true ∧
     t.sleeps.getLast? = some d ∧
     t.finalState = RL.updateFromHeaders { remaining := hrem, reset := hres, retryAfter := some d } st) ∧
    (let t := RL.middleware st now (fun n =>
        if n = 0 then .response 429 { remaining := hrem, reset := hres, retryAfter := some d }
        else .response 200 hdr2)
     t.callsMade = 2 ∧ t.result = .ok 200 ∧ RL.clientSeesError t = false ∧
     t.sleeps.getLast? = some d) ∧
    (let t := RL.middleware st now (fun _ => .netError e)
     t.callsMade = 1 ∧ t.result = .error e ∧ RL.clientSeesError t = true) ∧
    (let t := RL.middleware st now (fun _ => .response 500 hdr5)
     t.callsMade = 1 ∧ t.result = .ok 500 ∧ RL.clientSeesError t = true) := by
  refine ⟨?_, ?_, ?_, ?_⟩ <;>
    simp [RL.middleware, RL.clientSeesError, RL.updateFromHeaders, RL.waitIfNeeded]

/-- Whether a worker action is a `SyncRepository` call. -/
def Worker.isSyncAttempt : Worker.Action → Bool
  | .syncAttempt _ => true
  | _ => false

/-- Whether a tick's watermark read succeeded (the only case in which
the tick's branch reaches the `SyncRepository` call). -/
def Worker.readOk (p : Worker.ReadResult × Except Err Unit) : Bool :=
  match p.1 with
  | .ok _ => true
  | .error _ => false

/-- C9: `SyncWorker.Run` starts with one immediate `SyncRepository`
call with the zero watermark (full history); a failure of that call is
logged and the timer loop is entered anyway; on a tick the stored
watermark is read and `SyncRepository` is called with it, and the loop
continues to the next event whatever the outcomes were — over any
cancel-free run of ticks whose reads succeed, every single tick produces
its own sync attempt (a failing repository is never disabled) — and the
cancellation signal makes the loop exit. -/
theorem syncWorker_run_behaviour :
    (∀ (init : Except Err Unit) (events : List Worker.Event),
       (Worker.run init events).head? = some (.syncAttempt 0)) ∧
    (∀ (e : Err) (events : List Worker.Event),
       Worker.run (.error e) events =
         [.syncAttempt 0, .logSyncError] ++ Worker.loop events) ∧
    (∀ (r : Worker.ReadResult) (sr : Except Err Unit) (rest : List Worker.Event),
       Worker.loop (.tick r sr :: rest) = Worker.tickActions r sr ++ Worker.loop rest) ∧
    (∀ (w : Int) (sr : Except Err Unit) (rest : List Worker.Event),
       Worker.Action.syncAttempt w ∈ Worker.loop (.tick (.ok (some (some w))) sr :: rest)) ∧
    (∀ (ticks : List (Worker.ReadResult × Except Err Unit)),
       ((Worker.loop (ticks.map (fun p => .tick p.1 p.2))).countP Worker.isSyncAttempt) =
         ticks.countP Worker.readOk) ∧
    (∀ (rest : List Worker.Event), Worker.loop (.cancel :: rest) = [.stopped]) := by
  refine ⟨?_, ?_, ?_, ?_, ?_, ?_⟩
  · intro init events
    cases init <;> rfl
  · intro e events
    rfl
  · intro r sr rest
    rfl
  · intro w sr rest
    cases sr <;> simp [Worker.loop, Worker.tickActions, Worker.sinceOf]
  · intro ticks
    induction ticks with
    | nil => rfl
    | cons p rest ih =>
        obtain ⟨r, sr⟩ := p
        cases r with
        | error e =>
            cases sr <;>
              simp [Worker.loop, Worker.tickActions, Worker.readOk, Worker.isSyncAttempt,
                List.countP_cons, ih]
        | ok repoOpt =>
            cases sr <;>
              simp [Worker.loop, Worker.tickActions, Worker.readOk, Worker.isSyncAttempt,
                List.countP_cons, ih]
  · intro rest
    rfl

/-- A distinct fixture commit entry. -/
def fixtureCommit (i : Nat) : GH.Commit :=
  { sha := toString i
    htmlUrl := "https://example.test/commit"
    commit := { message := "m", authorName := "n", authorEmail := "e", authorDate := 0 }
    authorLogin := "login" }

/-- `n` fixture commits starting at number `start`. -/
def fixtureCommits (start n : Nat) : List GH.Commit :=
  (List.range n).map (fun i => fixtureCommit (start + i))

/-- Fixture page 1: 100 commits and a `rel="next"` marker. -/
def fixturePage1 : Client.Page :=
  { commits := fixtureCommits 0 100, hasNext := true }

/-- Fixture page 2: 37 commits and no marker. -/
def fixturePage2 : Client.Page :=
  { commits := fixtureCommits 100 37, hasNext := false }

/-- Every request the pagination loop issues carries the same `since`
bound and `per_page=100`, and the page numbers count up from the
starting page. -/
theorem fetchAllPagesFrom_request_shape (since : Option Int) :
    ∀ (server : Client.Server) (pageNum : Nat),
      ((Client.fetchAllPagesFrom since pageNum server).2.map
          (fun r => (r.since, r.perPage)) =
        List.replicate ((Client.fetchAllPagesFrom since pageNum server).2.length)
          (since, some 100)) ∧
      ((Client.fetchAllPagesFrom since pageNum server).2.map (fun r => r.page) =
        (List.range ((Client.fetchAllPagesFrom since pageNum server).2.length)).map
          (fun i => some (pageNum + i))) := by
  have hr1 : List.range 1 = [0] := rfl
  intro server
  induction server with
  | nil =>
      intro pageNum
      simp [Client.fetchAllPagesFrom, hr1]
  | cons p rest ih =>
      intro pageNum
      by_cases hemp : p.commits.isEmpty
      · constructor
        · simp [Client.fetchAllPagesFrom, hemp]
        · simp [Client.fetchAllPagesFrom, hemp, hr1]
      · by_cases hnext : p.hasNext
        · obtain ⟨ih1, ih2⟩ := ih (pageNum + 1)
          have key : ∀ i : Nat, (pageNum + 1) + i = pageNum + (i + 1) := by omega
          constructor
          · simp [Client.fetchAllPagesFrom, hemp, hnext, ih1, List.replicate_succ]
          · simp [Client.fetchAllPagesFrom, hemp, hnext, ih2, List.range_succ_eq_map,
              List.map_map, Function.comp_def, key]
        · constructor
          · simp [Client.fetchAllPagesFrom, hemp, hnext]
          · simp [Client.fetchAllPagesFrom, hemp, hnext, hr1]

/-- C5: `ListCommits` without an explicit page fetches all pages —
page 1 first with fixed page size 100, the same `since` bound and
`per_page=100` on every request, consecutive page numbers from 1, each
page's entries appended in request order, stopping after a page with
zero entries or without a `rel="next"` marker; on the fixture of
page 1 = 100 commits + next marker and page 2 = 37 commits + no marker
it returns the 137 commits in request order after exactly 2 requests. -/
theorem listCommits_all_pages (since : Option Int) (server : Client.Server) :
    ((Client.listCommits { since := since, page := 0, perPage := 0 } server =
        Client.fetchAllPages since server) ∧
     ((Client.fetchAllPages since server).2.map (fun r => (r.since, r.perPage)) =
       List.replicate ((Client.fetchAllPages since server).2.length) (since, some 100)) ∧
     ((Client.fetchAllPages since server).2.map (fun r => r.page) =
       (List.range ((Client.fetchAllPages since server).2.length)).map
         (fun i => some (1 + i)))) ∧
    (Client.listCommits { since := some 7, page := 0, perPage := 0 }
        [fixturePage1, fixturePage2] =
      (fixturePage1.commits ++ fixturePage2.commits,
       [{ since := some 7, page := some 1, perPage := some 100 },
        { since := some 7, page := some 2, perPage := some 100 }]) ∧
     (fixturePage1.commits ++ fixturePage2.commits).length = 137) := by
  refine ⟨⟨?_, ?_, ?_⟩, ?_, ?_⟩
  · rfl
  · exact (fetchAllPagesFrom_request_shape since server 1).1
  · exact (fetchAllPagesFrom_request_shape since server 1).2
  · rfl
  · rfl

/-- C6 evaluation: `ListCommits` with the explicit page number 2 and
page size 50 issues exactly one request, but that request carries no
`page` and no `per_page` parameter at all (`fetchSinglePage` builds its
path from `queryParams`, to which only `since` was ever added), so the
upstream serves its default first page and those entries are returned
— not page 2. -/
theorem listCommits_explicit_page_drops_page_params :
    Client.listCommits { since := some 7, page := 2, perPage := 50 }
        [fixturePage1, fixturePage2] =
      (fixturePage1.commits,
       [{ since := some 7, page := none, perPage := none }]) := by
  rfl

/-- C1: `SyncRepository` persistence is all-or-nothing. Whenever the
transaction body — repository upsert, any commit insert, commit fetch,
or watermark update — returns an error, `WithTransaction` rolls back
and the database state visible afterwards is exactly the initial one. -/
theorem syncRepository_all_or_nothing (meta : Except Err GH.Repository)
    (commitsR : Except Err (List GH.Commit)) (o : Service.SyncOracles)
    (now : Int) (s : DBState)
    (h : (Service.syncRepository meta commitsR o now s).1.1.isOk = false) :
    (Service.syncRepository meta commitsR o now s).1.2 = s := by
  unfold Service.syncRepository at h ⊢
  cases hb : (Service.syncBody meta commitsR o now s).1 with
  | ok s1 => simp [hb, Except.isOk, Except.toBool] at h
  | error e => simp [hb]

/-- Repository row used by the concrete rollback/reset scenarios: a
previously synced repository with watermark 50. -/
def scenarioRepoRow : Models.Repository :=
  { id := 1, name := "owner/repo", description := "d", url := "u", language := "go"
    forksCount := 1, starsCount := 2, openIssuesCount := 3, watchersCount := 4
    createdAt := 10, updatedAt := 20, lastCommitFetchedAt := some 50 }

/-- Initial state for the rollback witness: the repository row and no
commit rows persisted yet. -/
def rollbackState : DBState :=
  { repositories := [scenarioRepoRow], commits := [], nextId := 2 }

/-- GitHub metadata for the scenario repository. -/
def scenarioMeta : GH.Repository :=
  { fullName := "owner/repo", description := "d", htmlUrl := "u", language := "go"
    forksCount := 1, stargazersCount := 2, openIssuesCount := 3, watchersCount := 4
    createdAt := 10, updatedAt := 21 }

/-- Five fetched commits for the rollback scenario. -/
def rollbackCommits : List GH.Commit := (List.range 5).map (fun i => fixtureCommit i)

/-- Oracles injecting a failure while persisting the 3rd of the fetched
commits (0-based index 2); every other statement succeeds. -/
def rollbackOracles : Service.SyncOracles :=
  { upsertErr := none
    insertErr := fun i => if i = 2 then some "insert failed" else none
    updateErr := none }

/-- Witness for C1: with 5 fetched commits and a failure injected while
persisting the 3rd, the sync returns an error, the final state is the
initial state — zero commits persisted and the watermark still 50. -/
theorem syncRepository_all_or_nothing_witness :
    ((Service.syncRepository (.ok scenarioMeta) (.ok rollbackCommits)
        rollbackOracles 99 rollbackState).1.1.isOk = false) ∧
    (Service.syncRepository (.ok scenarioMeta) (.ok rollbackCommits)
        rollbackOracles 99 rollbackState).1.2 = rollbackState ∧
    (Service.syncRepository (.ok scenarioMeta) (.ok rollbackCommits)
        rollbackOracles 99 rollbackState).1.2.commits = [] ∧
    (Service.syncRepository (.ok scenarioMeta) (.ok rollbackCommits)
        rollbackOracles 99 rollbackState).1.2.repositories.map
      (fun r => r.lastCommitFetchedAt) = [some 50] :=
  ⟨by rfl,
   syncRepository_all_or_nothing (.ok scenarioMeta) (.ok rollbackCommits)
     rollbackOracles 99 rollbackState (by rfl),
   by rfl, by rfl⟩

/-- One persisted commit row for the reset scenario. -/
def resetCommitRow : Models.Commit :=
  { sha := "abc", repositoryId := 1, message := "m", authorName := "a"
    authorEmail := "e", authorDate := 60, commitUrl := "u" }

/-- Initial state for the reset scenario: the repository row with
watermark 50 and one persisted commit. -/
def resetState : DBState :=
  { repositories := [scenarioRepoRow], commits := [resetCommitRow], nextId := 2 }

/-- C4 counterexample: `ResetRepository` issues its DELETE and its
UPDATE as two separate auto-committed statements, so the outcome the
claim rules out does occur: with a failure injected into the watermark
update, the concrete run below ends with the repository's commits
deleted while the watermark still holds its old value 50, not the
requested 100. -/
theorem resetRepository_not_atomic_counterexample :
    ¬ ((DB.resetRepository none (some "update failed") "owner/repo" 100
          resetState).2.commits = [] →
       (DB.resetRepository none (some "update failed") "owner/repo" 100
          resetState).2.repositories.map (fun r => r.lastCommitFetchedAt) =
         [some 100]) := by
  decide

/-- `deleteCommitsOf` touches only the commits table. -/
theorem deleteCommitsOf_repositories (nm : String) (s : DBState) :
    (DB.deleteCommitsOf nm s).repositories = s.repositories := by
  unfold DB.deleteCommitsOf
  cases DB.repoIdByName s nm <;> rfl

/-- C4 (amended): `ResetRepository(name, since)` deletes all commit
rows for the named repository and then sets that repository's watermark
to `since`, as two separate non-atomic statements: a failure of the
DELETE leaves the state untouched; when both statements succeed the
commits are gone and the watermark of every row with the name is
`since`; but a failure of the UPDATE after a successful DELETE leaves
the commits already deleted and every repository row — the watermark
included — unchanged. -/
theorem resetRepository_two_statements (nm : String) (since : Int) (s : DBState)
    (e : Err) :
    (DB.resetRepository (some e) none nm since s = (.error e, s)) ∧
    ((DB.resetRepository none (some e) nm since s).1 = .error e ∧
     (DB.resetRepository none (some e) nm since s).2.commits =
       (DB.deleteCommitsOf nm s).commits ∧
     (DB.resetRepository none (some e) nm since s).2.repositories =
       s.repositories) ∧
    ((DB.resetRepository none none nm since s).1 = .ok () ∧
     (DB.resetRepository none none nm since s).2.commits =
       (DB.deleteCommitsOf nm s).commits ∧
     (DB.resetRepository none none nm since s).2.repositories =
       s.repositories.map (DB.setWatermarkRow nm (some since))) := by
  refine ⟨rfl, ⟨rfl, rfl, deleteCommitsOf_repositories nm s⟩, rfl, rfl, ?_⟩
  simp [DB.resetRepository, DB.setWatermarkByName, deleteCommitsOf_repositories]

/-- The repository-row fields outside the upsert's `DO UPDATE SET`
list: id, unique name, created_at, and the watermark. -/
def repoFrame (r : Models.Repository) : Nat × String × Int × Option Int :=
  (r.id, r.name, r.createdAt, r.lastCommitFetchedAt)

/-- The conflict-update path rewrites only the metadata and counter
columns: the frame fields of every row survive unchanged. -/
theorem updateFirstByName_frame (nm : String) (m : DB.RepoMetadata) :
    ∀ rs : List Models.Repository,
      (DB.updateFirstByName nm (DB.applyRepoUpdate m) rs).map repoFrame =
        rs.map repoFrame := by
  intro rs
  induction rs with
  | nil => rfl
  | cons r rest ih =>
      by_cases h : r.name = nm
      · simp [DB.updateFirstByName, h, DB.applyRepoUpdate, repoFrame]
      · simp [DB.updateFirstByName, h, ih]

/-- C10: `UpsertRepository(Tx)` is keyed by the unique name and returns
the assigned identity together with the previous watermark: on conflict
it returns the existing row's id and its watermark, and the update
overwrites only the metadata and counter columns — id, name,
created_at and the stored watermark of every row are unchanged; on a
fresh insert it returns the new id and a null previous watermark (the
new row's watermark is null), which is how a caller detects a first
sync. -/
theorem upsertRepository_prior_watermark (m : DB.RepoMetadata) (s : DBState) :
    (∀ r, s.repositories.find? (fun q => q.name = m.name) = some r →
       (DB.upsertRepositoryTx m s).2 = (r.id, r.lastCommitFetchedAt) ∧
       (DB.upsertRepositoryTx m s).1.repositories.map repoFrame =
         s.repositories.map repoFrame) ∧
    (s.repositories.find? (fun q => q.name = m.name) = none →
       (DB.upsertRepositoryTx m s).2 = (s.nextId, none) ∧
       (DB.upsertRepositoryTx m s).1.repositories =
         s.repositories ++ [DB.freshRepoRow m s.nextId] ∧
       (DB.freshRepoRow m s.nextId).lastCommitFetchedAt = none) := by
  constructor
  · intro r hr
    refine ⟨?_, ?_⟩
    · simp [DB.upsertRepositoryTx, hr, DB.applyRepoUpdate]
    · simp [DB.upsertRepositoryTx, hr, updateFirstByName_frame]
  · intro hr
    refine ⟨?_, ?_, rfl⟩
    · simp [DB.upsertRepositoryTx, hr]
    · simp [DB.upsertRepositoryTx, hr]

/-- The empty database. -/
def emptyState : DBState := { repositories := [], commits := [], nextId := 1 }

/-- Witness for C10: on the populated state the upsert returns id 1 and
the previous watermark 50 while every row's frame fields survive; on
the empty database it returns the fresh id and a null previous
watermark. -/
theorem upsertRepository_prior_watermark_witness :
    ((DB.upsertRepositoryTx (Service.toRepoMetadata scenarioMeta) resetState).2 =
       (scenarioRepoRow.id, scenarioRepoRow.lastCommitFetchedAt) ∧
     (DB.upsertRepositoryTx (Service.toRepoMetadata scenarioMeta)
         resetState).1.repositories.map repoFrame =
       resetState.repositories.map repoFrame) ∧
    ((DB.upsertRepositoryTx (Service.toRepoMetadata scenarioMeta) emptyState).2 =
       (emptyState.nextId, none) ∧
     (DB.upsertRepositoryTx (Service.toRepoMetadata scenarioMeta)
         emptyState).1.repositories =
       emptyState.repositories ++
         [DB.freshRepoRow (Service.toRepoMetadata scenarioMeta) emptyState.nextId] ∧
     (DB.freshRepoRow (Service.toRepoMetadata scenarioMeta)
         emptyState.nextId).lastCommitFetchedAt = none) :=
  ⟨(upsertRepository_prior_watermark (Service.toRepoMetadata scenarioMeta)
      resetState).1 scenarioRepoRow (by rfl),
   (upsertRepository_prior_watermark (Service.toRepoMetadata scenarioMeta)
      emptyState).2 (by rfl)⟩

/-- Cumulative effect of the commit-insertion loop when no statement
fails: each fetched commit inserted in order via `InsertCommitTx`. -/
def Service.insertAll (repoId : Nat) (cs : List GH.Commit) (s : DBState) : DBState :=
  cs.foldl (fun s1 c => DB.insertCommitTx (Service.toCommitRow repoId c) s1) s

/-- With no injected statement failure the insertion loop succeeds,
performs the fold of the inserts, and attempts one insert per fetched
commit in list order. -/
theorem insertLoop_noFailures (repoId : Nat) :
    ∀ (cs : List GH.Commit) (i : Nat) (s : DBState),
      Service.insertLoop (fun _ => none) repoId cs i s =
        (.ok (Service.insertAll repoId cs s),
         cs.map (fun c => .insertCommit c.sha)) := by
  intro cs
  induction cs with
  | nil => intro i s; rfl
  | cons c rest ih =>
      intro i s
      simp [Service.insertLoop, Service.insertAll, ih (i + 1)]

/-- The step ordering C3 asserts of `SyncRepository`: metadata fetched
first, commits fetched second, and the transaction scope — with the
repository upsert inside it — entered only after both fetches. -/
def specClaimedOrder (tr : List Service.SyncEvent) : Prop :=
  tr.indexOf .fetchMetadata < tr.indexOf .fetchCommits ∧
  tr.indexOf .fetchCommits < tr.indexOf .beginTx ∧
  tr.indexOf .beginTx < tr.indexOf .upsertRepo

/-- C3 counterexample: on a concrete successful sync the recorded trace
is [beginTx, fetchMetadata, upsertRepo, fetchCommits, insertCommit,
updateWatermark, commitTx] — the transaction is opened before either
fetch and the repository upsert precedes the commit fetch — so the
claimed ordering is false. -/
theorem syncRepository_spec_order_counterexample :
    ¬ specClaimedOrder
        (Service.syncRepository (.ok scenarioMeta) (.ok [fixtureCommit 0])
          Service.noFailures 99 resetState).2 := by
  unfold specClaimedOrder
  decide

/-- C3 (amended): `SyncRepository` opens the transaction scope first
and performs every step inside it, in this order: fetch metadata via
the Client (failure rolls back with no writes visible), upsert the
repository row, fetch the commits since `since` via the Client (failure
likewise rolls back, so no writes are visible even though the upsert
already executed), insert every fetched commit, and finally advance
the watermark to "now"; when everything succeeds the transaction
commits. -/
theorem syncRepository_actual_order (g : GH.Repository) (cs : List GH.Commit)
    (cR : Except Err (List GH.Commit)) (e : Err) (now : Int) (s : DBState) :
    (Service.syncRepository (.error e) cR Service.noFailures now s =
       ((.error e, s), [.beginTx, .fetchMetadata, .rollbackTx])) ∧
    (Service.syncRepository (.ok g) (.error e) Service.noFailures now s =
       ((.error e, s),
        [.beginTx, .fetchMetadata, .upsertRepo, .fetchCommits, .rollbackTx])) ∧
    ((Service.syncRepository (.ok g) (.ok cs) Service.noFailures now s).2 =
       [Service.SyncEvent.beginTx, .fetchMetadata, .upsertRepo, .fetchCommits] ++
         cs.map (fun c => .insertCommit c.sha) ++ [.updateWatermark, .commitTx] ∧
     (Service.syncRepository (.ok g) (.ok cs) Service.noFailures now s).1.1 =
       .ok ()) := by
  refine ⟨rfl, rfl, ?_, ?_⟩
  · simp [Service.syncRepository, Service.syncBody, Service.noFailures,
      insertLoop_noFailures]
  · simp [Service.syncRepository, Service.syncBody, Service.noFailures,
      insertLoop_noFailures]

/-- Inserting a commit whose key is already present is a silent no-op. -/
theorem insertCommitTx_noop (c : Models.Commit) (s : DBState)
    (h : DB.commitKeyMem s c.sha c.repositoryId = true) :
    DB.insertCommitTx c s = s := by
  simp [DB.insertCommitTx, h]

/-- After inserting a commit its key is present. -/
theorem commitKeyMem_insert_self (c : Models.Commit) (s : DBState) :
    DB.commitKeyMem (DB.insertCommitTx c s) c.sha c.repositoryId = true := by
  unfold DB.insertCommitTx
  by_cases h : DB.commitKeyMem s c.sha c.repositoryId
  · rw [if_pos h]
    exact h
  · rw [if_neg h]
    unfold DB.commitKeyMem
    simp

/-- An insert never removes a present key. -/
theorem commitKeyMem_insert_mono (c : Models.Commit) {s : DBState}
    {sha : String} {i : Nat} (h : DB.commitKeyMem s sha i = true) :
    DB.commitKeyMem (DB.insertCommitTx c s) sha i = true := by
  unfold DB.insertCommitTx
  by_cases hc : DB.commitKeyMem s c.sha c.repositoryId
  · rw [if_pos hc]
    exact h
  · rw [if_neg hc]
    unfold DB.commitKeyMem at h ⊢
    simp only [List.any_append]
    simp [h]

/-- Key presence only looks at the commits table. -/
theorem commitKeyMem_congr {s t : DBState} (h : s.commits = t.commits)
    (sha : String) (i : Nat) :
    DB.commitKeyMem s sha i = DB.commitKeyMem t sha i := by
  unfold DB.commitKeyMem
  rw [h]

/-- Unfolding step of the insertion fold. -/
theorem insertAll_cons (repoId : Nat) (c : GH.Commit) (cs : List GH.Commit)
    (s : DBState) :
    Service.insertAll repoId (c :: cs) s =
      Service.insertAll repoId cs (DB.insertCommitTx (Service.toCommitRow repoId c) s) :=
  rfl

/-- The insertion loop never removes a present key. -/
theorem insertAll_key_mono (repoId : Nat) (cs : List GH.Commit) :
    ∀ (s : DBState) (sha : String) (i : Nat),
      DB.commitKeyMem s sha i = true →
      DB.commitKeyMem (Service.insertAll repoId cs s) sha i = true := by
  induction cs with
  | nil => intro s sha i h; exact h
  | cons c rest ih =>
      intro s sha i h
      rw [insertAll_cons]
      exact ih _ _ _ (commitKeyMem_insert_mono _ h)

/-- After the insertion loop, the key of every fetched commit is
present. -/
theorem insertAll_key_mem (repoId : Nat) (cs : List GH.Commit) :
    ∀ (s : DBState) (c : GH.Commit), c ∈ cs →
      DB.commitKeyMem (Service.insertAll repoId cs s) c.sha repoId = true := by
  induction cs with
  | nil => intro s c h; cases h
  | cons d rest ih =>
      intro s c h
      rw [insertAll_cons]
      rcases List.mem_cons.mp h with rfl | h2
      · refine insertAll_key_mono repoId rest _ _ _ ?_
        have hself := commitKeyMem_insert_self (Service.toCommitRow repoId c) s
        simpa [Service.toCommitRow] using hself
      · exact ih _ _ h2

/-- If every fetched commit's key is already present, the insertion
loop changes nothing: re-inserting an unchanged commit set is a no-op. -/
theorem insertAll_noop (repoId : Nat) (cs : List GH.Commit) :
    ∀ s : DBState, (∀ c ∈ cs, DB.commitKeyMem s c.sha repoId = true) →
      Service.insertAll repoId cs s = s := by
  induction cs with
  | nil => intro s _; rfl
  | cons c rest ih =>
      intro s h
      rw [insertAll_cons]
      have hc : DB.commitKeyMem s (Service.toCommitRow repoId c).sha
          (Service.toCommitRow repoId c).repositoryId = true := by
        simpa [Service.toCommitRow] using h c (List.mem_cons_self c rest)
      rw [insertCommitTx_noop _ _ hc]
      exact ih _ (fun d hd => h d (List.mem_cons_of_mem c hd))

/-- The commit insert touches only the commits table. -/
theorem insertCommitTx_repositories (c : Models.Commit) (s : DBState) :
    (DB.insertCommitTx c s).repositories = s.repositories := by
  by_cases h : DB.commitKeyMem s c.sha c.repositoryId <;> simp [DB.insertCommitTx, h]

/-- The insertion loop touches only the commits table. -/
theorem insertAll_repositories (repoId : Nat) (cs : List GH.Commit) :
    ∀ s : DBState, (Service.insertAll repoId cs s).repositories = s.repositories := by
  induction cs with
  | nil => intro s; rfl
  | cons c rest ih =>
      intro s
      rw [insertAll_cons, ih, insertCommitTx_repositories]

/-- The repository upsert touches only the repositories table. -/
theorem upsertRepositoryTx_commits (m : DB.RepoMetadata) (s : DBState) :
    (DB.upsertRepositoryTx m s).1.commits = s.commits := by
  cases hf : s.repositories.find? (fun r => r.name = m.name) <;>
    simp [DB.upsertRepositoryTx, hf]

/-- Looking up by name commutes with the conflict-update, which keeps
every row's name. -/
theorem find?_updateFirstByName (m : DB.RepoMetadata) :
    ∀ rs : List Models.Repository,
      (DB.updateFirstByName m.name (DB.applyRepoUpdate m) rs).find?
          (fun q => q.name = m.name) =
        (rs.find? (fun q => q.name = m.name)).map (DB.applyRepoUpdate m) := by
  intro rs
  induction rs with
  | nil => rfl
  | cons r rest ih =>
      by_cases h : r.name = m.name
      · simp [DB.updateFirstByName, h, DB.applyRepoUpdate]
      · simp [DB.updateFirstByName, h, ih]

/-- Looking up by name commutes with the watermark update, which keeps
every row's name. -/
theorem find?_updateWatermarkById (nm : String) (id : Nat) (w : Option Int) :
    ∀ rs : List Models.Repository,
      (DB.updateWatermarkById id w rs).find? (fun q => q.name = nm) =
        (rs.find? (fun q => q.name = nm)).map
          (fun r => if r.id = id then { r with lastCommitFetchedAt := w } else r) := by
  intro rs
  induction rs with
  | nil => rfl
  | cons r rest ih =>
      by_cases h : r.name = nm
      · by_cases hid : r.id = id <;> simp [DB.updateWatermarkById, h, hid]
      · by_cases hid : r.id = id <;>
          simpa [DB.updateWatermarkById, h, hid] using ih

/-- After an upsert, looking the name up finds a row carrying exactly
the id the upsert returned. -/
theorem upsert_then_find (m : DB.RepoMetadata) (s : DBState) :
    ∃ r', (DB.upsertRepositoryTx m s).1.repositories.find?
        (fun q => q.name = m.name) = some r' ∧
      r'.id = (DB.upsertRepositoryTx m s).2.1 := by
  cases hf : s.repositories.find? (fun r => r.name = m.name) with
  | some r =>
      refine ⟨DB.applyRepoUpdate m r, ?_, ?_⟩
      · simp [DB.upsertRepositoryTx, hf, find?_updateFirstByName]
      · simp [DB.upsertRepositoryTx, hf]
  | none =>
      refine ⟨DB.freshRepoRow m s.nextId, ?_, ?_⟩
      · simp [DB.upsertRepositoryTx, hf, List.find?_append, DB.freshRepoRow]
      · simp [DB.upsertRepositoryTx, hf, DB.freshRepoRow]

/-- Shape of a `SyncRepository` run in which the fetches succeed and no
persistence statement fails: the call succeeds and the committed state
is watermark-update after inserting all commits after the upsert. -/
theorem syncRepository_noFailures_run (g : GH.Repository) (cs : List GH.Commit)
    (now : Int) (s : DBState) :
    (Service.syncRepository (.ok g) (.ok cs) Service.noFailures now s).1.1 = .ok () ∧
    (Service.syncRepository (.ok g) (.ok cs) Service.noFailures now s).1.2 =
      DB.updateRepositoryTx
        (DB.upsertRepositoryTx (Service.toRepoMetadata g) s).2.1 (some now)
        (Service.insertAll (DB.upsertRepositoryTx (Service.toRepoMetadata g) s).2.1
          cs (DB.upsertRepositoryTx (Service.toRepoMetadata g) s).1) := by
  constructor <;>
    simp [Service.syncRepository, Service.syncBody, Service.noFailures,
      insertLoop_noFailures]

/-- The id the upsert returns when the name is found. -/
theorem upsertRepositoryTx_found_id (m : DB.RepoMetadata) (t : DBState)
    (r : Models.Repository)
    (h : t.repositories.find? (fun q => q.name = m.name) = some r) :
    (DB.upsertRepositoryTx m t).2.1 = r.id := by
  simp [DB.upsertRepositoryTx, h, DB.applyRepoUpdate]

/-- Two consecutive no-failure sync runs over the same metadata and
fetched commit set: the second run's committed state has exactly the
commits table the first run committed. -/
theorem twoRuns_commits_eq (m : DB.RepoMetadata) (cs : List GH.Commit)
    (now1 now2 : Int) (s : DBState) :
    (DB.updateRepositoryTx
        (DB.upsertRepositoryTx m
          (DB.updateRepositoryTx (DB.upsertRepositoryTx m s).2.1 (some now1)
            (Service.insertAll (DB.upsertRepositoryTx m s).2.1 cs
              (DB.upsertRepositoryTx m s).1))).2.1
        (some now2)
        (Service.insertAll
          (DB.upsertRepositoryTx m
            (DB.updateRepositoryTx (DB.upsertRepositoryTx m s).2.1 (some now1)
              (Service.insertAll (DB.upsertRepositoryTx m s).2.1 cs
                (DB.upsertRepositoryTx m s).1))).2.1
          cs
          (DB.upsertRepositoryTx m
            (DB.updateRepositoryTx (DB.upsertRepositoryTx m s).2.1 (some now1)
              (Service.insertAll (DB.upsertRepositoryTx m s).2.1 cs
                (DB.upsertRepositoryTx m s).1))).1)).commits =
      (DB.updateRepositoryTx (DB.upsertRepositoryTx m s).2.1 (some now1)
        (Service.insertAll (DB.upsertRepositoryTx m s).2.1 cs
          (DB.upsertRepositoryTx m s).1)).commits := by
  obtain ⟨r', hr', hrid⟩ := upsert_then_find m s
  set id1 := (DB.upsertRepositoryTx m s).2.1 with hid1
  set s1 := (DB.upsertRepositoryTx m s).1 with hs1
  set T1 := DB.updateRepositoryTx id1 (some now1) (Service.insertAll id1 cs s1)
    with hT1
  set u2 := DB.upsertRepositoryTx m T1 with hu2
  have hfindT1 : T1.repositories.find? (fun q => q.name = m.name) =
      some (if r'.id = id1 then { r' with lastCommitFetchedAt := some now1 }
            else r') := by
    have hTrep : T1.repositories =
        DB.updateWatermarkById id1 (some now1) s1.repositories := by
      rw [hT1]
      show DB.updateWatermarkById id1 (some now1)
          (Service.insertAll id1 cs s1).repositories = _
      rw [insertAll_repositories]
    rw [hTrep, find?_updateWatermarkById, hr']
    rfl
  have hid2 : u2.2.1 = id1 := by
    rw [hu2, upsertRepositoryTx_found_id m T1 _ hfindT1]
    by_cases hcase : r'.id = id1
    · simp [hcase]
    · exact absurd hrid hcase
  have hu2commits : u2.1.commits = T1.commits := upsertRepositoryTx_commits m T1
  have hT1commits : T1.commits = (Service.insertAll id1 cs s1).commits := by
    rw [hT1]
    rfl
  have hmem : ∀ c ∈ cs, DB.commitKeyMem u2.1 c.sha id1 = true := by
    intro c hc
    rw [commitKeyMem_congr (t := Service.insertAll id1 cs s1)
      (by rw [hu2commits, hT1commits])]
    exact insertAll_key_mem id1 cs s1 c hc
  have hnoop : Service.insertAll u2.2.1 cs u2.1 = u2.1 := by
    rw [hid2]
    exact insertAll_noop id1 cs u2.1 hmem
  show (DB.updateRepositoryTx u2.2.1 (some now2)
      (Service.insertAll u2.2.1 cs u2.1)).commits = T1.commits
  rw [hnoop, ← hu2commits]
  rfl

/-- C2: re-running `SyncRepository` with an unchanged fetched commit
set never creates duplicate commit rows. Inserting the same commit a
second time is a silent no-op (not an error), and after a successful
sync a second successful sync of the same fetched commit set leaves the
commits table exactly as the first run left it. -/
theorem syncRepository_idempotent_commits (g : GH.Repository)
    (cs : List GH.Commit) (now1 now2 : Int) (s : DBState) :
    (∀ (c : Models.Commit) (t : DBState),
       DB.insertCommitTx c (DB.insertCommitTx c t) = DB.insertCommitTx c t) ∧
    ((Service.syncRepository (.ok g) (.ok cs) Service.noFailures now1 s).1.1 =
       .ok ()) ∧
    ((Service.syncRepository (.ok g) (.ok cs) Service.noFailures now2
        (Service.syncRepository (.ok g) (.ok cs) Service.noFailures now1
          s).1.2).1.2.commits =
      (Service.syncRepository (.ok g) (.ok cs) Service.noFailures now1
        s).1.2.commits) := by
  refine ⟨?_, (syncRepository_noFailures_run g cs now1 s).1, ?_⟩
  · intro c t
    exact insertCommitTx_noop c _ (commitKeyMem_insert_self c t)
  · obtain ⟨hok1, hst1⟩ := syncRepository_noFailures_run g cs now1 s
    rw [hst1]
    obtain ⟨hok2, hst2⟩ := syncRepository_noFailures_run g cs now2
      (DB.updateRepositoryTx
        (DB.upsertRepositoryTx (Service.toRepoMetadata g) s).2.1 (some now1)
        (Service.insertAll (DB.upsertRepositoryTx (Service.toRepoMetadata g) s).2.1
          cs (DB.upsertRepositoryTx (Service.toRepoMetadata g) s).1))
    rw [hst2]
    exact twoRuns_commits_eq (Service.toRepoMetadata g) cs now1 now2 s
